import Mathlib

/-!
Verification of the photography-portfolio metadata pipeline and masonry layout.

The JavaScript sources are embedded shallowly:

* `scripts/import-photos.js` (class `PhotoImporter`): photo-id generation,
  new-photo detection, album creation, and the albums.json update step.
* `scripts/sync-albums.js` (class `AlbumSyncer`): rename detection and
  document rewriting.
* the cleanup script (class `PhotoCleanup`): orphan detection, derived-file
  removal, the save guard, and the CLI argument parser.
* `scripts/reorder-photos.js` (class `PhotoReorder`): the document load step.
* the masonry engine (class `MasonryLayout`): column math, item spanning,
  placement and height computation.

Modelling conventions.  JavaScript objects become structures; the albums.json
document becomes an association list `List (String × Album)` preserving key
insertion order.  The filesystem is passed explicitly (directory listings as
`List String`).  JS `Date` values are modelled by their numeric timeline value
(`new Date(x).getTime()`), so a photo date is a `Nat`; `Date.now()` is an
explicit `now : Nat` argument.  Pixel quantities are rationals.  Fields of a
photo record that none of the embedded operations read (tags, technical EXIF
bag, and so on) are elided; operations that copy a record wholesale are
modelled as copying all modelled fields.  JS `Array.prototype.sort`, which is
required to be stable, is modelled by stable insertion sort.
-/

/-! ## String utilities mirroring Node and JS builtins

They are written over `List Char` so that every definition evaluates by
kernel reduction on concrete inputs. -/

/-- Split at every character satisfying `p`, keeping empty pieces, like JS
`str.split` with a one-character-class regex. -/
def splitPredAux (p : Char → Bool) : List Char → List Char → List (List Char)
  | [], acc => [acc.reverse]
  | c :: rest, acc =>
    if p c then acc.reverse :: splitPredAux p rest []
    else splitPredAux p rest (c :: acc)

/-- JS `str.split` with a one-character-class regex. -/
def splitPred (p : Char → Bool) (s : String) : List String :=
  (splitPredAux p s.toList []).map List.asString

/-- JS `str.split(sep)` for a one-character separator. -/
def splitChar (sep : Char) (s : String) : List String :=
  splitPred (fun c => c = sep) s

/-- JS `str.toLowerCase()` (ASCII case mapping). -/
def toLowerStr (s : String) : String :=
  (s.toList.map Char.toLower).asString

/-- JS `str.endsWith(pat)`. -/
def endsWithStr (s pat : String) : Bool :=
  pat.toList.isSuffixOf s.toList

/-- JS `str.startsWith(pat)`. -/
def startsWithStr (s pat : String) : Bool :=
  pat.toList.isPrefixOf s.toList

/-- Node `path.parse(s).name` for a plain basename: the part before the last
dot, except that a lone leading dot (dot-file) carries no extension. -/
def pathParseName (s : String) : String :=
  match splitChar '.' s with
  | [] => s
  | [_] => s
  | "" :: rest => if rest.length = 1 then s else String.intercalate "." (("" :: rest).dropLast)
  | parts => String.intercalate "." parts.dropLast

/-- Node `path.basename` for the forward-slash paths stored in the document. -/
def pathBasename (s : String) : String :=
  (splitChar '/' s).getLastD s

/-- JS `str.slice(-6)`: the last six characters (the whole string if shorter). -/
def sliceLastSix (s : String) : String :=
  s.drop (s.length - 6)

/-- Character class `[a-z0-9]` used by the id normalisation regex. -/
def isLowerAlnum (c : Char) : Bool :=
  (97 ≤ c.toNat && c.toNat ≤ 122) || (48 ≤ c.toNat && c.toNat ≤ 57)

/-- JS `str.replace(pat, rep)` with a plain-string pattern: replace the
leftmost occurrence only, return the string unchanged when absent. -/
def replaceFirstAux (pat rep : List Char) : List Char → List Char
  | [] => if pat.isEmpty then rep else []
  | c :: rest =>
    if pat.isPrefixOf (c :: rest) then rep ++ (c :: rest).drop pat.length
    else c :: replaceFirstAux pat rep rest

/-- JS `str.replace(pat, rep)` for a plain-string pattern. -/
def replaceFirst (s pat rep : String) : String :=
  (replaceFirstAux pat.toList rep.toList s.toList).asString

/-- JS truthiness of an optional string field: `undefined` and `""` are falsy. -/
def strFalsy (o : Option String) : Bool :=
  o = none || o = some ""

/-! ## Data model: the albums.json document -/

/-- One image entry of an album (`albums.json` Photo).  `date` is the numeric
value of `new Date(photo.date)`; `originalFilename` is
`photo.metadata?.originalFilename` (`none` models a missing field). -/
structure Photo where
  id : String
  title : String
  thumbnail : String
  full : String
  date : Nat
  order : Option Int
  originalFilename : Option String
  deriving DecidableEq

/-- One album entry of the document. -/
structure Album where
  title : String
  description : String
  cover : String
  images : List Photo
  deriving DecidableEq

/-- The albums.json document: an association list keeping JS object key
insertion order. -/
abbrev AlbumsData := List (String × Album)

/-- JS `obj[k]` on the document. -/
def getKey (d : AlbumsData) (k : String) : Option Album :=
  (d.find? (fun p => p.1 = k)).map (fun p => p.2)

/-- JS `obj[k] = v`: overwrite in place, or append a fresh key at the end. -/
def setKey (d : AlbumsData) (k : String) (v : Album) : AlbumsData :=
  if d.any (fun p => p.1 = k) then
    d.map (fun p => if p.1 = k then (k, v) else p)
  else
    d ++ [(k, v)]

/-- JS `delete obj[k]`. -/
def eraseKey (d : AlbumsData) (k : String) : AlbumsData :=
  d.filter (fun p => p.1 ≠ k)

/-! ## PhotoImporter (import-photos.js) -/

/-- `PhotoImporter.generatePhotoId`: three-letter album prefix, the filename
base lowercased with everything outside `[a-z0-9]` stripped, then the last six
digits of `Date.now()`. -/
def generatePhotoId (filename albumName : String) (now : Nat) : String :=
  let albumPrefix := albumName.take 3
  let baseName := ((toLowerStr (pathParseName filename)).toList.filter isLowerAlnum).asString
  let timestamp := sliceLastSix (toString now)
  albumPrefix ++ baseName ++ timestamp

/-- The extension filter regex of `PhotoImporter.findNewPhotos`. -/
def isImportImageFile (file : String) : Bool :=
  [".jpg", ".jpeg", ".png", ".webp", ".tiff", ".raw", ".cr2", ".nef", ".arw"].any
    (fun e => endsWithStr (toLowerStr file) e)

/-- A source file selected for import, before processing. -/
structure NewPhoto where
  filename : String
  id : String
  deriving DecidableEq

/-- `PhotoImporter.findNewPhotos`: a directory file is new when the id
recomputed for it now is not among the ids already stored in the album. -/
def findNewPhotos (albumName : String) (albumData : Album) (dirFiles : List String)
    (now : Nat) : List NewPhoto :=
  let imageFiles := dirFiles.filter isImportImageFile
  let existingIds := albumData.images.map (fun img => img.id)
  imageFiles.filterMap (fun filename =>
    let photoId := generatePhotoId filename albumName now
    if existingIds.contains photoId then none
    else some ⟨filename, photoId⟩)

/-- `generateTitle` of sync-albums.js and the album-title generation of
`PhotoImporter.createNewAlbumEntry`: split on `-`/`_`, capitalise each word,
join with spaces. -/
def generateTitle (albumName : String) : String :=
  let cap := fun (w : String) =>
    match w.toList with
    | [] => ""
    | c :: cs => (c.toUpper :: cs).asString
  String.intercalate " " ((splitPred (fun c => c = '-' || c = '_') albumName).map cap)

/-- The canned description table of `PhotoImporter.createNewAlbumEntry`. -/
def albumDescriptions : List (String × String) :=
  [("nature", "Capturing the beauty of landscapes and wildlife"),
   ("portraits", "Professional portraits and candid moments"),
   ("events", "Capturing special moments at weddings, parties, and corporate events"),
   ("wedding", "Beautiful wedding photography and memorable moments"),
   ("street", "Urban life and street photography"),
   ("travel", "Adventures and destinations from around the world"),
   ("architecture", "Stunning buildings and architectural details"),
   ("macro", "Close-up photography revealing intricate details"),
   ("black_and_white", "Timeless black and white photography"),
   ("lifestyle", "Lifestyle and everyday moments")]

/-- `PhotoImporter.createNewAlbumEntry`. -/
def createNewAlbumEntry (albumName : String) : Album :=
  let description :=
    match albumDescriptions.find? (fun p => p.1 = toLowerStr albumName) with
    | some p => p.2
    | none => "A collection of " ++ albumName ++ " photography"
  { title := generateTitle albumName
    description := description
    cover := albumName ++ "/cover.jpg"
    images := [] }

/-! ## Stable sorting (JS `Array.prototype.sort`) -/

/-- The comparator of the browser album view (`renderAlbum` in the album page
script): both ordered, ascending by `order`; an ordered photo before an
unordered one; both unordered, by date descending. -/
def albumViewCmp (a b : Photo) : Int :=
  match a.order, b.order with
  | some x, some y => x - y
  | some _, none => -1
  | none, some _ => 1
  | none, none => (b.date : Int) - (a.date : Int)

/-- The comparator of `PhotoImporter.updateAlbumsJson`: date descending only. -/
def importCmp (a b : Photo) : Int :=
  (b.date : Int) - (a.date : Int)

/-- Non-strict order induced by a JS comparator. -/
def cmpLe (cmp : Photo → Photo → Int) (a b : Photo) : Prop :=
  cmp a b ≤ 0

instance (cmp : Photo → Photo → Int) : DecidableRel (cmpLe cmp) :=
  fun _ _ => inferInstanceAs (Decidable (_ ≤ _))

/-- JS stable sort with a comparator, modelled by stable insertion sort. -/
def jsSort (cmp : Photo → Photo → Int) (l : List Photo) : List Photo :=
  l.insertionSort (cmpLe cmp)

/-- The images written back by `PhotoImporter.updateAlbumsJson`: push the new
photos, then sort by date, newest first. -/
def updateAlbumsJsonImages (images newPhotos : List Photo) : List Photo :=
  jsSort importCmp (images ++ newPhotos)

/-- `PhotoImporter.updateAlbumsJson` on the whole document. -/
def updateAlbumsJson (albumName : String) (albumsData : AlbumsData)
    (newPhotos : List Photo) : AlbumsData :=
  match getKey albumsData albumName with
  | none => albumsData
  | some album =>
      setKey albumsData albumName
        { album with images := updateAlbumsJsonImages album.images newPhotos }

/-- The browser album view sort over an images sequence. -/
def albumViewSort (images : List Photo) : List Photo :=
  jsSort albumViewCmp images

/-! ## Document loading (the per-script loadAlbumsData functions)

`fs.readFile` + `JSON.parse` are external; their three observable outcomes
are the file being absent (read throws ENOENT), present but unparseable
(JSON.parse throws), or parsed. -/

/-- Outcome of reading and parsing the albums.json file. -/
inductive DocFile (α : Type) where
  | missing
  | malformed
  | valid (data : α)
  deriving DecidableEq

/-- `PhotoImporter.loadAlbumsData`: an ENOENT read error yields the empty
document; any other failure (in particular a parse failure) is rethrown. -/
def importLoadAlbumsData : DocFile AlbumsData → Except String AlbumsData
  | .missing => .ok []
  | .malformed => .error "Failed to load albums.json: parse error"
  | .valid d => .ok d

/-- `AlbumSyncer.loadAlbumsData`: every failure, a missing file included, is
rethrown as a fatal error. -/
def syncLoadAlbumsData : DocFile AlbumsData → Except String AlbumsData
  | .missing => .error "Failed to load albums.json: ENOENT"
  | .malformed => .error "Failed to load albums.json: parse error"
  | .valid d => .ok d

/-- `PhotoCleanup.loadAlbumsData`: same shape as the sync loader. -/
def cleanupLoadAlbumsData : DocFile AlbumsData → Except String AlbumsData
  | .missing => .error "Failed to load albums.json: ENOENT"
  | .malformed => .error "Failed to load albums.json: parse error"
  | .valid d => .ok d

/-- `PhotoReorder.loadAlbums`: same shape as the sync loader. -/
def reorderLoadAlbums : DocFile AlbumsData → Except String AlbumsData
  | .missing => .error "Failed to load albums.json: ENOENT"
  | .malformed => .error "Failed to load albums.json: parse error"
  | .valid d => .ok d

/-! ## PhotoImporter.run -/

/-- Outcome of one import invocation: the process exit code and the document
written to albums.json, if any. -/
structure ImportResult where
  exitCode : Nat
  written : Option AlbumsData
  deriving DecidableEq

/-- `PhotoImporter.run` for a named album.  `albumDirExists` and `dirFiles`
stand for the source-directory probe and listing; `processPhoto` is the
external per-photo processing collaborator (sharp, EXIF, AI), returning
`none` when processing that photo fails (the photo is skipped). -/
def importRun (file : DocFile AlbumsData) (albumName : String) (albumDirExists : Bool)
    (dirFiles : List String) (now : Nat) (processPhoto : NewPhoto → Option Photo) :
    ImportResult :=
  if !albumDirExists then ⟨1, none⟩
  else
    match importLoadAlbumsData file with
    | .error _ => ⟨1, none⟩
    | .ok albumsData =>
      let albumData :=
        match getKey albumsData albumName with
        | some a => a
        | none => createNewAlbumEntry albumName
      let albumsData1 :=
        match getKey albumsData albumName with
        | some _ => albumsData
        | none => setKey albumsData albumName albumData
      let newPhotos := findNewPhotos albumName albumData dirFiles now
      if newPhotos.isEmpty then ⟨0, none⟩
      else
        let processedPhotos := newPhotos.filterMap processPhoto
        if processedPhotos.isEmpty then ⟨0, none⟩
        else ⟨0, some (updateAlbumsJson albumName albumsData1 processedPhotos)⟩

/-! ## AlbumSyncer (sync-albums.js) -/

/-- JS `\s` characters that can occur in the directory names at hand. -/
def jsWhitespace (c : Char) : Bool :=
  c = ' ' || c = '\t' || c = '\n' || c = '\r' || c = '\x0b' || c = '\x0c'

/-- Dropping a prefix cannot lengthen a list (termination bound below). -/
theorem dropWhile_len_le (p : Char → Bool) : (l : List Char) →
    (l.dropWhile p).length ≤ l.length
  | [] => Nat.le_refl _
  | c :: l => by
    rw [List.dropWhile]
    cases hp : p c
    · exact Nat.le_refl _
    · exact Nat.le_succ_of_le (dropWhile_len_le p l)

/-- The split of `AlbumSyncer.isSimilar`: the regex alternates a greedy
whitespace run with a single `-` or `_`. -/
def splitSimilarAux : List Char → List Char → List String
  | [], acc => [acc.reverse.asString]
  | c :: rest, acc =>
    if c = '-' || c = '_' then
      acc.reverse.asString :: splitSimilarAux rest []
    else if jsWhitespace c then
      acc.reverse.asString :: splitSimilarAux (rest.dropWhile jsWhitespace) []
    else
      splitSimilarAux rest (c :: acc)
termination_by l _ => l.length
decreasing_by
  · simp only [List.length_cons]; omega
  · exact Nat.lt_succ_of_le (dropWhile_len_le jsWhitespace rest)
  · simp only [List.length_cons]; omega

/-- `str.toLowerCase().split(/\s+|[-_]/)`. -/
def splitSimilarWords (s : String) : List String :=
  splitSimilarAux (toLowerStr s).toList []

/-- `AlbumSyncer.isSimilar`: the shared-significant-word heuristic.  The JS
comparison `common >= min * 0.5` is written multiplied through by two. -/
def isSimilar (str1 str2 : String) : Bool :=
  let words1 := splitSimilarWords str1
  let words2 := splitSimilarWords str2
  let commonWords := words1.filter (fun word => word.length > 2 && words2.contains word)
  2 * commonWords.length ≥ min words1.length words2.length

/-- `AlbumSyncer.findPossibleRename`. -/
def findPossibleRename (oldKey : String) (currentDirs jsonKeys : List String) :
    Option String :=
  let unmatchedDirs := currentDirs.filter (fun dir => !jsonKeys.contains dir)
  if unmatchedDirs.length = 1 && currentDirs.length = jsonKeys.length then
    unmatchedDirs.head?
  else
    unmatchedDirs.find? (fun dir => isSimilar oldKey dir)

/-- One entry of the change list built by `AlbumSyncer.detectChanges`. -/
inductive SyncChange where
  | rename (oldKey newKey : String) (data : Album)
  | missingDirectory (key : String)
  | missingJson (directory : String)
  deriving DecidableEq

/-- The first loop of `AlbumSyncer.detectChanges`: every JSON key without a
matching directory becomes a rename candidate or a missing-directory report. -/
def detectKeyChanges (albumsData : AlbumsData) (currentDirs : List String) :
    List SyncChange :=
  albumsData.filterMap (fun p =>
    if currentDirs.contains p.1 then none
    else
      match findPossibleRename p.1 currentDirs (albumsData.map Prod.fst) with
      | some newKey => some (.rename p.1 newKey p.2)
      | none => some (.missingDirectory p.1))

/-- The second loop of `AlbumSyncer.detectChanges`: every directory without a
JSON key and not already claimed by a rename is a new-album report. -/
def detectDirChanges (albumsData : AlbumsData) (currentDirs : List String)
    (keyChanges : List SyncChange) : List SyncChange :=
  currentDirs.filterMap (fun dir =>
    if (albumsData.map Prod.fst).contains dir then none
    else if keyChanges.any (fun ch =>
        match ch with
        | .rename _ newKey _ => newKey = dir
        | _ => false) then none
    else some (.missingJson dir))

/-- `AlbumSyncer.detectChanges`: the key pass followed by the directory
pass, which consults the changes found by the key pass. -/
def detectChanges (albumsData : AlbumsData) (currentDirs : List String) :
    List SyncChange :=
  let keyChanges := detectKeyChanges albumsData currentDirs
  keyChanges ++ detectDirChanges albumsData currentDirs keyChanges

/-- The album value produced by the rename branch of
`AlbumSyncer.applyChanges`: regenerated title, image paths with the first
`/old/` segment rewritten, cover with the first `old/` rewritten. -/
def renamedAlbum (oldKey newKey : String) (data : Album) : Album :=
  { data with
    title := generateTitle newKey
    images := data.images.map (fun img =>
      { img with
        thumbnail := replaceFirst img.thumbnail ("/" ++ oldKey ++ "/") ("/" ++ newKey ++ "/")
        full := replaceFirst img.full ("/" ++ oldKey ++ "/") ("/" ++ newKey ++ "/") })
    cover := if data.cover ≠ "" then replaceFirst data.cover (oldKey ++ "/") (newKey ++ "/")
             else data.cover }

/-- `AlbumSyncer.applyChanges`.  A rename stores a copy under the new key,
deletes the old key, then rewrites title, image paths and cover in place; the
reporting-only change kinds leave the document untouched. -/
def applyChanges (albumsData : AlbumsData) (changes : List SyncChange) : AlbumsData :=
  changes.foldl (fun updatedData change =>
    match change with
    | .rename oldKey newKey data =>
        let d1 := eraseKey (setKey updatedData newKey data) oldKey
        match getKey d1 newKey with
        | none => d1
        | some a => setKey d1 newKey (renamedAlbum oldKey newKey a)
    | .missingDirectory _ => updatedData
    | .missingJson _ => updatedData) albumsData

/-- Outcome of one sync invocation. -/
structure SyncResult where
  exitCode : Nat
  written : Option AlbumsData
  deriving DecidableEq

/-- `AlbumSyncer.run`: load, detect, and only when changes exist and dry-run
is off, apply and save. -/
def syncRun (file : DocFile AlbumsData) (currentDirs : List String) (dryRun : Bool) :
    SyncResult :=
  match syncLoadAlbumsData file with
  | .error _ => ⟨1, none⟩
  | .ok albumsData =>
    let changes := detectChanges albumsData currentDirs
    if changes.isEmpty then ⟨0, none⟩
    else if dryRun then ⟨0, none⟩
    else ⟨0, some (applyChanges albumsData changes)⟩

/-! ## PhotoCleanup (cleanup script)

The source `albums/` tree is passed as an association list from album
directory name to its file listing; a name absent from the list is a missing
directory.  Paths of derived files are represented by their components below
the project root, so deletions can be compared against directory prefixes. -/

/-- The source albums directory tree: directory name to contained files. -/
abbrev SourceDirs := List (String × List String)

/-- `PhotoCleanup.albumDirectoryExists`. -/
def albumDirectoryExists (sourceDirs : SourceDirs) (albumName : String) : Bool :=
  (sourceDirs.lookup albumName).isSome

/-- `PhotoCleanup.sourceImageExists`: false for a falsy filename, otherwise an
existence probe of `albums/<album>/<file>`. -/
def sourceImageExists (sourceDirs : SourceDirs) (albumName : String)
    (originalFilename : Option String) : Bool :=
  if strFalsy originalFilename then false
  else
    match sourceDirs.lookup albumName, originalFilename with
    | some files, some f => files.contains f
    | _, _ => false

/-- The unlink targets of `PhotoCleanup.removeProcessedFiles`: the thumbnail
and full derivatives of a photo, under the thumbnails/ and full/ trees. -/
def removeProcessedFilesPaths (photo : Photo) (albumName : String) :
    List (List String) :=
  (if photo.thumbnail ≠ "" then
      [["assets", "images", "thumbnails", albumName, pathBasename photo.thumbnail]]
    else []) ++
  (if photo.full ≠ "" then
      [["assets", "images", "full", albumName, pathBasename photo.full]]
    else [])

/-- Result of `PhotoCleanup.cleanupAlbum`: the surviving album (`none` when
the whole album entry is to be dropped), the derived files unlinked, and the
statistics increments feeding the save guard. -/
structure CleanupAlbumResult where
  album : Option Album
  deletions : List (List String)
  orphanedPhotos : Nat
  orphanedAlbums : Nat
  deriving DecidableEq

/-- The per-photo body of the loop in `PhotoCleanup.cleanupAlbum`,
accumulating the `validPhotos` list, the unlinked derived files, and the
orphaned-photo count. -/
def cleanupPhotoStep (sourceDirs : SourceDirs) (albumName : String)
    (dryRun removeProcessedFiles : Bool)
    (acc : List Photo × List (List String) × Nat) (photo : Photo) :
    List Photo × List (List String) × Nat :=
  if strFalsy photo.originalFilename then
    (acc.1 ++ [photo], acc.2.1, acc.2.2)
  else if sourceImageExists sourceDirs albumName photo.originalFilename then
    (acc.1 ++ [photo], acc.2.1, acc.2.2)
  else
    (acc.1,
     acc.2.1 ++ (if !dryRun && removeProcessedFiles then
                    removeProcessedFilesPaths photo albumName
                  else []),
     acc.2.2 + 1)

/-- `PhotoCleanup.cleanupAlbum`. -/
def cleanupAlbum (sourceDirs : SourceDirs) (albumName : String) (albumData : Album)
    (dryRun removeProcessedFiles : Bool) : CleanupAlbumResult :=
  if !albumDirectoryExists sourceDirs albumName then
    if !dryRun then
      { album := none
        deletions :=
          if removeProcessedFiles then
            (albumData.images.map (fun p => removeProcessedFilesPaths p albumName)).flatten
          else []
        orphanedPhotos := 0
        orphanedAlbums := 1 }
    else
      { album := some albumData, deletions := [], orphanedPhotos := 0, orphanedAlbums := 1 }
  else
    let step := albumData.images.foldl
      (cleanupPhotoStep sourceDirs albumName dryRun removeProcessedFiles) ([], [], 0)
    { album := some { albumData with images := step.1 }
      deletions := step.2.1
      orphanedPhotos := step.2.2
      orphanedAlbums := 0 }

/-- The options object of `PhotoCleanup.cleanup` and the CLI parser. -/
structure CleanupOptions where
  dryRun : Bool
  removeProcessedFiles : Bool
  albums : List String
  showNewAlbums : Bool
  interactive : Bool
  deriving DecidableEq

/-- Outcome of one cleanup invocation: exit code, document written (if any)
and every derived file unlinked. -/
structure CleanupResult where
  exitCode : Nat
  written : Option AlbumsData
  deletions : List (List String)
  deriving DecidableEq

/-- The per-album body of the loop in `PhotoCleanup.cleanup`, accumulating
the rebuilt document, the unlinked derived files, and the orphan counts. -/
def cleanupMainStep (sourceDirs : SourceDirs) (albumsData : AlbumsData)
    (opts : CleanupOptions)
    (acc : AlbumsData × List (List String) × Nat × Nat) (albumName : String) :
    AlbumsData × List (List String) × Nat × Nat :=
  match getKey albumsData albumName with
  | none => acc
  | some albumData =>
    let r := cleanupAlbum sourceDirs albumName albumData
      opts.dryRun opts.removeProcessedFiles
    (match r.album with
     | some a => acc.1 ++ [(albumName, a)]
     | none => acc.1,
     acc.2.1 ++ r.deletions,
     acc.2.2.1 + r.orphanedPhotos,
     acc.2.2.2 + r.orphanedAlbums)

/-- `PhotoCleanup.cleanup`: load, clean each selected album, keep the rest,
and save only when not in dry-run and some orphan was found. -/
def cleanupMain (sourceDirs : SourceDirs) (file : DocFile AlbumsData)
    (opts : CleanupOptions) : CleanupResult :=
  match cleanupLoadAlbumsData file with
  | .error _ => ⟨1, none, []⟩
  | .ok albumsData =>
    let albumsToProcess :=
      if opts.albums.length > 0 then
        opts.albums.filter (fun name => (getKey albumsData name).isSome)
      else albumsData.map (fun p => p.1)
    if albumsToProcess.isEmpty then ⟨0, none, []⟩
    else
      let processed := albumsToProcess.foldl
        (cleanupMainStep sourceDirs albumsData opts) ([], [], 0, 0)
      let updatedAlbumsData :=
        processed.1 ++ albumsData.filter (fun p => !albumsToProcess.contains p.1)
      if !opts.dryRun && (processed.2.2.1 > 0 || processed.2.2.2 > 0) then
        ⟨0, some updatedAlbumsData, processed.2.1⟩
      else
        ⟨0, none, processed.2.1⟩

/-- The option defaults of the cleanup CLI (`dryRun` defaults to true). -/
def defaultCleanupOptions : CleanupOptions :=
  { dryRun := true
    removeProcessedFiles := true
    albums := []
    showNewAlbums := true
    interactive := false }

/-- The argument loop of the cleanup CLI.  `--help`/`-h` exits immediately
(error value, exit code 0) before any cleanup work. -/
def parseCleanupArgs : List String → CleanupOptions → Except Nat CleanupOptions
  | [], opts => .ok opts
  | arg :: rest, opts =>
    if arg = "--dry-run" then
      parseCleanupArgs rest { opts with dryRun := true }
    else if arg = "--confirm" ∨ arg = "--execute" then
      parseCleanupArgs rest { opts with dryRun := false }
    else if arg = "--keep-processed" then
      parseCleanupArgs rest { opts with removeProcessedFiles := false }
    else if arg = "--no-new-albums" then
      parseCleanupArgs rest { opts with showNewAlbums := false }
    else if arg = "--interactive" then
      parseCleanupArgs rest { opts with interactive := true }
    else if arg = "--help" ∨ arg = "-h" then
      .error 0
    else if !startsWithStr arg "--" then
      parseCleanupArgs rest { opts with albums := opts.albums ++ [arg] }
    else
      parseCleanupArgs rest opts

/-- The cleanup CLI entry point: parse, then run either
`interactiveCleanup` (which always calls cleanup with `dryRun := true`) or
`cleanup` with the parsed options. -/
def cleanupCli (args : List String) (sourceDirs : SourceDirs)
    (file : DocFile AlbumsData) : CleanupResult :=
  match parseCleanupArgs args defaultCleanupOptions with
  | .error code => ⟨code, none, []⟩
  | .ok opts =>
    if opts.interactive then
      cleanupMain sourceDirs file
        { dryRun := true
          removeProcessedFiles := true
          albums := []
          showNewAlbums := true
          interactive := true }
    else
      cleanupMain sourceDirs file opts

/-! ## MasonryLayout (masonry engine)

Pixel quantities are rationals; DOM image state is a record of the fields the
engine reads.  `Math.min(...)`/`Math.max(...)` spreads are only applied to
nonempty lists in the source, so the model gives them an arbitrary value 0 on
the empty list. -/

/-- The fields of an `img` element read by the engine. -/
structure ImgData where
  naturalWidth : ℚ
  naturalHeight : ℚ
  complete : Bool
  offsetWidth : ℚ
  offsetHeight : ℚ
  deriving DecidableEq

/-- A gallery item as seen by `positionItem` (its optional child image). -/
structure LayoutItem where
  img : Option ImgData
  deriving DecidableEq

/-- JS `Math.min(...l)` for nonempty `l`. -/
def jsMin : List ℚ → ℚ
  | [] => 0
  | x :: xs => xs.foldl min x

/-- JS `Math.max(...l)` for nonempty `l`. -/
def jsMax : List ℚ → ℚ
  | [] => 0
  | x :: xs => xs.foldl max x

/-- Result of `MasonryLayout.calculateColumns`. -/
structure ColumnsCalc where
  columnCount : Nat
  actualColumnWidth : ℚ
  deriving DecidableEq

/-- `MasonryLayout.calculateColumns`: floor-divide the available width by
column-plus-gutter, clamp to at least one column, then stretch the actual
column width to fill the remaining space exactly. -/
def calculateColumns (availableWidth columnWidth gutter : ℚ) : ColumnsCalc :=
  let rawCount : Int := ⌊availableWidth / (columnWidth + gutter)⌋
  let columnCount : Nat := (max 1 rawCount).toNat
  let totalGutterWidth : ℚ := ((columnCount - 1 : Nat) : ℚ) * gutter
  { columnCount := columnCount
    actualColumnWidth := (availableWidth - totalGutterWidth) / (columnCount : ℚ) }

/-- The landscape test of `MasonryLayout.positionItem`:
`img.naturalWidth > img.naturalHeight || (img.complete && img.offsetWidth > img.offsetHeight)`. -/
def isLandscape (img : ImgData) : Bool :=
  img.naturalWidth > img.naturalHeight || (img.complete && img.offsetWidth > img.offsetHeight)

/-- `Math.max(...this.columns.slice(i, i + columnsSpanned))`. -/
def spanMax (columns : List ℚ) (i columnsSpanned : Nat) : ℚ :=
  jsMax ((columns.drop i).take columnsSpanned)

/-- One iteration of the best-position scan for a multi-column item: strict
improvement only, so the lowest index wins ties.  `none` models the initial
`Infinity` best height. -/
def spanStep (columns : List ℚ) (columnsSpanned : Nat)
    (best : Nat × Option ℚ) (i : Nat) : Nat × Option ℚ :=
  let maxHeightInSpan := spanMax columns i columnsSpanned
  match best.2 with
  | none => (i, some maxHeightInSpan)
  | some bestHeight =>
      if maxHeightInSpan < bestHeight then (i, some maxHeightInSpan) else best

/-- The scan over starting positions `0 ≤ i ≤ columnCount - columnsSpanned`
in `MasonryLayout.positionItem` (an empty scan when the span exceeds the
column count, as in the JS loop). -/
def spanBestPosition (columns : List ℚ) (columnsSpanned : Nat) : Nat :=
  let lastStart : Int := (columns.length : Int) - (columnsSpanned : Int)
  ((List.range (lastStart + 1).toNat).foldl (spanStep columns columnsSpanned) (0, none)).1

/-- The placement computed by `MasonryLayout.positionItem` for one item. -/
structure Placement where
  columnsSpanned : Nat
  itemWidth : ℚ
  columnIndex : Nat
  x : ℚ
  y : ℚ
  deriving DecidableEq

/-- `MasonryLayout.positionItem` up to the absolute placement of the item:
span decision, column choice, and coordinates. -/
def positionItem (columns : List ℚ) (actualColumnWidth gutter innerWidth : ℚ)
    (item : LayoutItem) : Placement :=
  let columnCount := columns.length
  let spanInfo :=
    match item.img with
    | some img =>
      if 2 ≤ columnCount ∧ 769 ≤ innerWidth ∧ isLandscape img = true then
        let s := min 2 columnCount
        (s, actualColumnWidth * (s : ℚ) + gutter * ((s : ℚ) - 1))
      else (1, actualColumnWidth)
    | none => (1, actualColumnWidth)
  let columnsSpanned := spanInfo.1
  let itemWidth := spanInfo.2
  let shortestColumnIndex :=
    if columnsSpanned = 1 then
      columns.findIdx (fun h => h = jsMin columns)
    else
      spanBestPosition columns columnsSpanned
  let x := (shortestColumnIndex : ℚ) * (actualColumnWidth + gutter)
  let y :=
    if columnsSpanned = 1 then
      columns.getD shortestColumnIndex 0
    else
      spanMax columns shortestColumnIndex columnsSpanned
  { columnsSpanned := columnsSpanned
    itemWidth := itemWidth
    columnIndex := shortestColumnIndex
    x := x
    y := y }

/-- The image-height decision of `MasonryLayout.positionItem`. -/
inductive HeightOutcome where
  | known (height : ℚ)
  | provisional (height : ℚ) (relayoutOnLoadOrError : Bool)
  deriving DecidableEq

/-- The height branch of `MasonryLayout.positionItem`: with known natural
dimensions, the width-scaled natural height clamped to `[150, 600]`; otherwise
a provisional 250 pixels, with a full re-layout registered on both the image
load and the image error event. -/
def computeItemHeight (img : ImgData) (itemWidth : ℚ) : HeightOutcome :=
  if img.complete && img.naturalWidth > 0 then
    let aspect := img.naturalHeight / img.naturalWidth
    let calculatedHeight := itemWidth * aspect
    .known (max 150 (min 600 calculatedHeight))
  else
    .provisional 250 true

/-! ## Sortedness machinery for the two comparators -/

instance : IsTotal Photo (cmpLe albumViewCmp) where
  total a b := by
    unfold cmpLe albumViewCmp
    rcases a.order with _ | x <;> rcases b.order with _ | y <;> simp <;> omega

instance : IsTrans Photo (cmpLe albumViewCmp) where
  trans a b c := by
    unfold cmpLe albumViewCmp
    rcases a.order with _ | x <;> rcases b.order with _ | y <;>
      rcases c.order with _ | z <;> simp <;> omega

instance : IsTotal Photo (cmpLe importCmp) where
  total a b := by
    unfold cmpLe importCmp
    omega

instance : IsTrans Photo (cmpLe importCmp) where
  trans a b c := by
    unfold cmpLe importCmp
    omega

/-- What one album-view comparator step guarantees about a pair in order. -/
theorem albumViewLe_imp (a b : Photo) (h : cmpLe albumViewCmp a b) :
    (b.order.isSome → a.order.isSome) ∧
    (∀ x y, a.order = some x → b.order = some y → x ≤ y) ∧
    (a.order = none → b.order = none → b.date ≤ a.date) := by
  unfold cmpLe albumViewCmp at h
  rcases ha : a.order with _ | x <;> rcases hb : b.order with _ | y <;>
    simp [ha, hb] at h ⊢ <;> omega

/-! ## C1, C2, C3: import idempotence, sort order, document errors -/

/-- The album state after a first import of `sunset.jpg` into `nature` at a
run whose `Date.now()` ends in 111111. -/
def c1FirstImportAlbum : Album :=
  { title := "Nature"
    description := "Capturing the beauty of landscapes and wildlife"
    cover := "nature/cover.jpg"
    images := [{ id := generatePhotoId "sunset.jpg" "nature" 1758000111111
                 title := "Sunset"
                 thumbnail := "assets/images/thumbnails/nature/natsunset111111.webp"
                 full := "assets/images/full/nature/natsunset111111.webp"
                 date := 1758000000
                 order := none
                 originalFilename := some "sunset.jpg" }] }

/-- C1: the photo id is not a deterministic function of album and filename:
it embeds the last six digits of `Date.now()`.  Re-running import on the
unchanged source directory at a later time recomputes a different id for
`sunset.jpg`, so `findNewPhotos` classifies the already-imported file as new
and the run imports it again, duplicating the photo. -/
theorem c1_reimport_duplicates_photo :
    generatePhotoId "sunset.jpg" "nature" 1758000111111 = "natsunset111111" ∧
    generatePhotoId "sunset.jpg" "nature" 1758000222222 = "natsunset222222" ∧
    findNewPhotos "nature" c1FirstImportAlbum ["sunset.jpg"] 1758000222222 =
      [{ filename := "sunset.jpg", id := "natsunset222222" }] := by
  refine ⟨?_, ?_, ?_⟩ <;> decide

/-- Photo with `order = 1` of the order-precedence example. -/
def pX : Photo :=
  { id := "x", title := "X", thumbnail := "tx", full := "fx", date := 200
    order := some 1, originalFilename := none }

/-- Photo with `order = 2` and the newest date. -/
def pY : Photo :=
  { id := "y", title := "Y", thumbnail := "ty", full := "fy", date := 300
    order := some 2, originalFilename := none }

/-- Photo without `order` and the oldest date. -/
def pZ : Photo :=
  { id := "z", title := "Z", thumbnail := "tz", full := "fz", date := 100
    order := none, originalFilename := none }

/-- C2 counterexample: the sort used by import when persisting the document
ignores `order` entirely; on X (order 1, date 200), Y (order 2, date 300),
Z (no order, date 100) it does not produce the claimed [X, Y, Z]. -/
theorem c2_import_sort_counterexample :
    updateAlbumsJsonImages [pX, pY, pZ] [] = [pY, pX, pZ] ∧
    updateAlbumsJsonImages [pX, pY, pZ] [] ≠ [pX, pY, pZ] := by
  refine ⟨?_, ?_⟩ <;> decide

/-- C2 (amended): the browser album view sort satisfies the order-precedence
property — ordered photos precede unordered ones, ordered photos are ascending
by `order`, unordered photos are descending by date, and the concrete X, Y, Z
example yields [X, Y, Z] — while import persists images sorted by date
descending only. -/
theorem c2_sort_precedence_amended :
    (∀ l : List Photo, (albumViewSort l).Pairwise (fun a b =>
        (b.order.isSome → a.order.isSome) ∧
        (∀ x y, a.order = some x → b.order = some y → x ≤ y) ∧
        (a.order = none → b.order = none → b.date ≤ a.date))) ∧
    (∀ images newPhotos : List Photo,
        (updateAlbumsJsonImages images newPhotos).Pairwise (fun a b => b.date ≤ a.date)) ∧
    albumViewSort [pZ, pY, pX] = [pX, pY, pZ] := by
  refine ⟨fun l => ?_, fun images newPhotos => ?_, by decide⟩
  · exact (List.sorted_insertionSort (cmpLe albumViewCmp) l).imp
      (fun h => albumViewLe_imp _ _ h)
  · refine (List.sorted_insertionSort (cmpLe importCmp) (images ++ newPhotos)).imp ?_
    intro a b h
    unfold cmpLe importCmp at h
    omega

/-- C3 counterexample: sync on a missing albums.json does not proceed on an
empty document — it aborts with exit code 1, unlike the run on an actually
empty document. -/
theorem c3_sync_missing_counterexample :
    syncRun DocFile.missing [] false ≠ syncRun (DocFile.valid []) [] false ∧
    (syncRun DocFile.missing [] false).exitCode = 1 ∧
    (syncRun (DocFile.valid []) [] false).exitCode = 0 := by
  refine ⟨?_, ?_, ?_⟩ <;> decide

/-- C3 (amended): only import treats a missing albums.json as an empty
document and proceeds; sync, cleanup and reorder abort with exit code 1 on a
missing file.  For all four operations a malformed document aborts with a
non-zero exit code and nothing is written. -/
theorem c3_document_error_handling :
    (∀ (albumName : String) (dirFiles : List String) (now : Nat)
        (processPhoto : NewPhoto → Option Photo),
      importRun DocFile.missing albumName true dirFiles now processPhoto =
        importRun (DocFile.valid []) albumName true dirFiles now processPhoto) ∧
    (∀ (albumName : String) (dirFiles : List String) (now : Nat)
        (processPhoto : NewPhoto → Option Photo),
      importRun DocFile.malformed albumName true dirFiles now processPhoto = ⟨1, none⟩) ∧
    (∀ (dirs : List String) (dryRun : Bool),
      syncRun DocFile.missing dirs dryRun = ⟨1, none⟩ ∧
      syncRun DocFile.malformed dirs dryRun = ⟨1, none⟩) ∧
    (∀ (sourceDirs : SourceDirs) (opts : CleanupOptions),
      cleanupMain sourceDirs DocFile.missing opts = ⟨1, none, []⟩ ∧
      cleanupMain sourceDirs DocFile.malformed opts = ⟨1, none, []⟩) ∧
    reorderLoadAlbums DocFile.missing = .error "Failed to load albums.json: ENOENT" ∧
    reorderLoadAlbums DocFile.malformed = .error "Failed to load albums.json: parse error" := by
  exact ⟨fun _ _ _ _ => rfl, fun _ _ _ _ => rfl, fun _ _ => ⟨rfl, rfl⟩,
         fun _ _ => ⟨rfl, rfl⟩, rfl, rfl⟩

/-! ## C8, C9: column math and height clamping -/

/-- C8: the layout engine derives the column count as
`max(1, floor(w / (c + g)))` and stretches the actual column width to
`(w - (count - 1) * g) / count`; for width 1000, column 300, gutter 16 this
gives 3 columns of width 968/3. -/
theorem c8_column_math :
    (∀ w c g : ℚ,
      (calculateColumns w c g).columnCount = (max 1 ⌊w / (c + g)⌋).toNat ∧
      (calculateColumns w c g).actualColumnWidth =
        (w - (((calculateColumns w c g).columnCount - 1 : Nat) : ℚ) * g) /
          ((calculateColumns w c g).columnCount : ℚ)) ∧
    (calculateColumns 1000 300 16).columnCount = 3 ∧
    (calculateColumns 1000 300 16).actualColumnWidth = 968 / 3 := by
  have hfloor : ⌊(1000 : ℚ) / (300 + 16)⌋ = 3 := by norm_num [Int.floor_eq_iff]
  refine ⟨fun w c g => ⟨rfl, rfl⟩, ?_, ?_⟩
  · simp [calculateColumns, hfloor]
  · simp [calculateColumns, hfloor]
    norm_num

/-- C9: with known natural dimensions the item height is the width-scaled
natural aspect clamped to [150, 600] (raw 1000 becomes 600, raw 50 becomes
150); otherwise the height is provisionally 250 and a full re-layout is
registered for the load and error events. -/
theorem c9_height_clamping :
    (∀ (img : ImgData) (itemWidth : ℚ), img.complete = true → 0 < img.naturalWidth →
      computeItemHeight img itemWidth =
        .known (max 150 (min 600 (itemWidth * (img.naturalHeight / img.naturalWidth))))) ∧
    (∀ (img : ImgData) (itemWidth : ℚ), img.complete = false ∨ img.naturalWidth ≤ 0 →
      computeItemHeight img itemWidth = .provisional 250 true) ∧
    computeItemHeight ⟨100, 250, true, 0, 0⟩ 400 = .known 600 ∧
    computeItemHeight ⟨400, 50, true, 0, 0⟩ 400 = .known 150 := by
  refine ⟨fun img itemWidth h1 h2 => ?_, fun img itemWidth h => ?_, ?_, ?_⟩
  · simp [computeItemHeight, h1, h2]
  · rcases h with h | h
    · simp [computeItemHeight, h]
    · have hnot : ¬ (img.naturalWidth > 0) := not_lt.mpr h
      simp [computeItemHeight, hnot]
  · norm_num [computeItemHeight]
  · norm_num [computeItemHeight]

/-- C9 witness: the general clamp equation applied to the 2.5-aspect image at
width 400. -/
theorem c9_height_clamping_witness :
    (⟨100, 250, true, 0, 0⟩ : ImgData).complete = true ∧
    (0 : ℚ) < (⟨100, 250, true, 0, 0⟩ : ImgData).naturalWidth ∧
    computeItemHeight ⟨100, 250, true, 0, 0⟩ 400 =
      .known (max 150 (min 600 (400 * ((250 : ℚ) / 100)))) :=
  ⟨rfl, by norm_num, c9_height_clamping.1 ⟨100, 250, true, 0, 0⟩ 400 rfl (by norm_num)⟩

/-! ## C4: cleanup of an album whose source directory exists -/

/-- Closed form of the per-photo cleanup loop: kept photos are a filter, the
unlinked files are the orphans' derived paths, the orphan count is the number
of orphans. -/
theorem cleanupPhotoStep_foldl (sd : SourceDirs) (n : String) (dr rm : Bool)
    (l : List Photo) :
    ∀ acc : List Photo × List (List String) × Nat,
    l.foldl (cleanupPhotoStep sd n dr rm) acc =
      (acc.1 ++ l.filter (fun p => strFalsy p.originalFilename ||
          sourceImageExists sd n p.originalFilename),
       acc.2.1 ++ ((l.filter (fun p => !(strFalsy p.originalFilename ||
          sourceImageExists sd n p.originalFilename))).map
          (fun p => if !dr && rm then removeProcessedFilesPaths p n else [])).flatten,
       acc.2.2 + (l.filter (fun p => !(strFalsy p.originalFilename ||
          sourceImageExists sd n p.originalFilename))).length) := by
  induction l with
  | nil => intro acc; simp
  | cons photo l ih =>
    intro acc
    rw [List.foldl_cons, ih]
    cases hf : strFalsy photo.originalFilename with
    | true =>
      simp [cleanupPhotoStep, hf, List.filter_cons, List.append_assoc]
    | false =>
      cases he : sourceImageExists sd n photo.originalFilename with
      | true =>
        simp [cleanupPhotoStep, hf, he, List.filter_cons, List.append_assoc]
      | false =>
        simp [cleanupPhotoStep, hf, he, List.filter_cons, List.append_assoc]
        omega

/-- Every unlink target of `removeProcessedFiles` lives under the
thumbnails/ or full/ tree. -/
theorem removeProcessedFilesPaths_take_three (p : Photo) (n : String) :
    ∀ q ∈ removeProcessedFilesPaths p n,
      q.take 3 = ["assets", "images", "thumbnails"] ∨
      q.take 3 = ["assets", "images", "full"] := by
  intro q hq
  unfold removeProcessedFilesPaths at hq
  split_ifs at hq <;> simp at hq <;>
    first
    | (rcases hq with rfl | rfl
       · left; rfl
       · right; rfl)
    | (rcases hq with rfl
       · first | (left; rfl) | (right; rfl))

/-- C4: on an album whose source directory exists, a non-dry-run cleanup with
file removal keeps exactly the photos whose originalFilename is unset (falsy)
or whose named file is present in the source directory, unlinks exactly the
orphans' derived thumbnail/full files, and never touches a path inside the
source albums directory. -/
theorem c4_cleanup_removes_exactly_orphans (sd : SourceDirs) (albumName : String)
    (albumData : Album) (hdir : albumDirectoryExists sd albumName = true) :
    (cleanupAlbum sd albumName albumData false true).album =
      some { albumData with images := albumData.images.filter (fun p =>
          strFalsy p.originalFilename || sourceImageExists sd albumName p.originalFilename) } ∧
    (cleanupAlbum sd albumName albumData false true).deletions =
      ((albumData.images.filter (fun p => !(strFalsy p.originalFilename ||
          sourceImageExists sd albumName p.originalFilename))).map
        (fun p => removeProcessedFilesPaths p albumName)).flatten ∧
    ∀ path ∈ (cleanupAlbum sd albumName albumData false true).deletions,
      path.take 3 ≠ ["assets", "images", "albums"] := by
  have hres : cleanupAlbum sd albumName albumData false true =
      { album := some { albumData with images := albumData.images.filter (fun p =>
            strFalsy p.originalFilename || sourceImageExists sd albumName p.originalFilename) }
        deletions := ((albumData.images.filter (fun p => !(strFalsy p.originalFilename ||
            sourceImageExists sd albumName p.originalFilename))).map
          (fun p => removeProcessedFilesPaths p albumName)).flatten
        orphanedPhotos := (albumData.images.filter (fun p => !(strFalsy p.originalFilename ||
            sourceImageExists sd albumName p.originalFilename))).length
        orphanedAlbums := 0 } := by
    unfold cleanupAlbum
    rw [hdir]
    rw [cleanupPhotoStep_foldl]
    simp
  refine ⟨by rw [hres], by rw [hres], ?_⟩
  rw [hres]
  intro path hp
  simp only [List.mem_flatten, List.mem_map] at hp
  obtain ⟨qs, ⟨p, _, rfl⟩, hpq⟩ := hp
  rcases removeProcessedFilesPaths_take_three p albumName path hpq with h | h <;>
    rw [h] <;> decide

/-- Source tree for the C4 witness: album `nature` holding only `keep.jpg`. -/
def c4SourceDirs : SourceDirs := [("nature", ["keep.jpg"])]

/-- Album for the C4 witness: a kept photo, an orphan, and a photo without
an original filename. -/
def c4Album : Album :=
  { title := "Nature"
    description := "d"
    cover := "nature/cover.jpg"
    images :=
      [{ id := "k", title := "K", thumbnail := "assets/images/thumbnails/nature/k.webp"
         full := "assets/images/full/nature/k.webp", date := 1, order := none
         originalFilename := some "keep.jpg" },
       { id := "g", title := "G", thumbnail := "assets/images/thumbnails/nature/g.webp"
         full := "assets/images/full/nature/g.webp", date := 2, order := none
         originalFilename := some "gone.jpg" },
       { id := "u", title := "U", thumbnail := "assets/images/thumbnails/nature/u.webp"
         full := "assets/images/full/nature/u.webp", date := 3, order := none
         originalFilename := none }] }

/-- C4 witness: the cleanup characterisation applied to a concrete album
with one orphan. -/
theorem c4_cleanup_removes_exactly_orphans_witness :
    albumDirectoryExists c4SourceDirs "nature" = true ∧
    ((cleanupAlbum c4SourceDirs "nature" c4Album false true).album =
      some { c4Album with images := c4Album.images.filter (fun p =>
          strFalsy p.originalFilename ||
          sourceImageExists c4SourceDirs "nature" p.originalFilename) } ∧
    (cleanupAlbum c4SourceDirs "nature" c4Album false true).deletions =
      ((c4Album.images.filter (fun p => !(strFalsy p.originalFilename ||
          sourceImageExists c4SourceDirs "nature" p.originalFilename))).map
        (fun p => removeProcessedFilesPaths p "nature")).flatten ∧
    ∀ path ∈ (cleanupAlbum c4SourceDirs "nature" c4Album false true).deletions,
      path.take 3 ≠ ["assets", "images", "albums"]) :=
  ⟨by decide, c4_cleanup_removes_exactly_orphans c4SourceDirs "nature" c4Album (by decide)⟩

/-! ## C6, C10: dry-run never writes and never deletes -/

/-- Flattening all-empty lists yields the empty list. -/
theorem flatten_map_nil {α β : Type} (l : List α) :
    (l.map (fun _ => ([] : List (List β)))).flatten = [] := by
  induction l <;> simp_all

/-- In dry-run mode `cleanupAlbum` unlinks nothing. -/
theorem cleanupAlbum_dry_run_deletions (sd : SourceDirs) (n : String) (a : Album)
    (rm : Bool) : (cleanupAlbum sd n a true rm).deletions = [] := by
  unfold cleanupAlbum
  cases hdir : albumDirectoryExists sd n
  · simp
  · rw [cleanupPhotoStep_foldl]
    simp

/-- In dry-run mode the per-album loop of `PhotoCleanup.cleanup` accumulates
no unlink at all. -/
theorem cleanupMainStep_foldl_dry (sd : SourceDirs) (d : AlbumsData)
    (opts : CleanupOptions) (h : opts.dryRun = true) (l : List String) :
    ∀ acc, (l.foldl (cleanupMainStep sd d opts) acc).2.1 = acc.2.1 := by
  induction l with
  | nil => intro acc; rfl
  | cons n l ih =>
    intro acc
    rw [List.foldl_cons, ih]
    unfold cleanupMainStep
    cases hk : getKey d n
    · rfl
    · simp [h, cleanupAlbum_dry_run_deletions]

/-- In dry-run mode `PhotoCleanup.cleanup` writes no document and unlinks no
file, whatever the filesystem and document state. -/
theorem cleanupMain_dry_run_frame (sd : SourceDirs) (file : DocFile AlbumsData)
    (opts : CleanupOptions) (h : opts.dryRun = true) :
    (cleanupMain sd file opts).written = none ∧
    (cleanupMain sd file opts).deletions = [] := by
  cases file with
  | missing => exact ⟨rfl, rfl⟩
  | malformed => exact ⟨rfl, rfl⟩
  | valid d =>
    unfold cleanupMain cleanupLoadAlbumsData
    simp only [h, Bool.not_true, Bool.false_and, if_false]
    constructor <;> split <;>
      simp [cleanupMainStep_foldl_dry sd d opts h]

/-- C6: a dry-run sync writes nothing; a dry-run cleanup writes nothing and
deletes no derived file — all detected changes are report-only and the write
step is only reachable with dry-run off. -/
theorem c6_dry_run_reports_only :
    (∀ (file : DocFile AlbumsData) (dirs : List String),
      (syncRun file dirs true).written = none) ∧
    (∀ (sd : SourceDirs) (file : DocFile AlbumsData) (rm : Bool)
        (al : List String) (sn ia : Bool),
      (cleanupMain sd file ⟨true, rm, al, sn, ia⟩).written = none ∧
      (cleanupMain sd file ⟨true, rm, al, sn, ia⟩).deletions = []) := by
  constructor
  · intro file dirs
    cases file with
    | missing => rfl
    | malformed => rfl
    | valid d =>
      simp only [syncRun, syncLoadAlbumsData]
      split <;> rfl
  · intro sd file rm al sn ia
    exact cleanupMain_dry_run_frame sd file ⟨true, rm, al, sn, ia⟩ rfl

/-- Without `--confirm` or `--execute` the parsed options keep the dry-run
default. -/
theorem parseCleanupArgs_keeps_dry_run (args : List String) :
    ∀ opts : CleanupOptions, "--confirm" ∉ args → "--execute" ∉ args →
    opts.dryRun = true →
    parseCleanupArgs args opts = .error 0 ∨
    ∃ o, parseCleanupArgs args opts = .ok o ∧ o.dryRun = true := by
  induction args with
  | nil =>
    intro opts _ _ h
    exact Or.inr ⟨opts, rfl, h⟩
  | cons arg rest ih =>
    intro opts h1 h2 h
    have h1r : "--confirm" ∉ rest := fun hm => h1 (List.mem_cons_of_mem _ hm)
    have h2r : "--execute" ∉ rest := fun hm => h2 (List.mem_cons_of_mem _ hm)
    have hne1 : ¬ (arg = "--confirm" ∨ arg = "--execute") := by
      rintro (rfl | rfl)
      · exact h1 (List.mem_cons_self _ _)
      · exact h2 (List.mem_cons_self _ _)
    unfold parseCleanupArgs
    split_ifs <;>
      first
      | exact absurd (by assumption) hne1
      | exact Or.inl rfl
      | exact ih _ h1r h2r h
      | exact ih _ h1r h2r rfl

/-- C10: a cleanup CLI invocation without `--confirm` and without
`--execute` runs dry: it writes no document and deletes no derived file,
regardless of the arguments, filesystem and document state. -/
theorem c10_cli_defaults_to_dry_run (args : List String) (sd : SourceDirs)
    (file : DocFile AlbumsData)
    (h1 : "--confirm" ∉ args) (h2 : "--execute" ∉ args) :
    (cleanupCli args sd file).written = none ∧
    (cleanupCli args sd file).deletions = [] := by
  unfold cleanupCli
  rcases parseCleanupArgs_keeps_dry_run args defaultCleanupOptions h1 h2 rfl with
    hp | ⟨o, hp, hdry⟩
  · rw [hp]
    exact ⟨rfl, rfl⟩
  · rw [hp]
    by_cases hi : o.interactive
    · simp only [hi, if_true]
      exact cleanupMain_dry_run_frame sd file _ rfl
    · simp only [hi, if_false]
      exact cleanupMain_dry_run_frame sd file o hdry

/-- C10 witness: the no-write guarantee applied to a concrete invocation
naming an album and passing `--dry-run` only, on a document with an orphan. -/
theorem c10_cli_defaults_to_dry_run_witness :
    "--confirm" ∉ ["nature", "--dry-run"] ∧
    "--execute" ∉ ["nature", "--dry-run"] ∧
    ((cleanupCli ["nature", "--dry-run"] [] (.valid [("nature", c4Album)])).written = none ∧
     (cleanupCli ["nature", "--dry-run"] [] (.valid [("nature", c4Album)])).deletions = []) :=
  ⟨by decide, by decide,
   c10_cli_defaults_to_dry_run ["nature", "--dry-run"] [] (.valid [("nature", c4Album)])
     (by decide) (by decide)⟩

/-! ## C5: association-list lemmas and the rename round-trip -/

/-- Lookup on a cons cell. -/
theorem getKey_cons (hd : String × Album) (tl : AlbumsData) (k : String) :
    getKey (hd :: tl) k = if hd.1 = k then some hd.2 else getKey tl k := by
  unfold getKey
  by_cases hk : hd.1 = k <;> simp [List.find?_cons, hk]

/-- Deletion on a cons cell. -/
theorem eraseKey_cons (hd : String × Album) (tl : AlbumsData) (A : String) :
    eraseKey (hd :: tl) A =
      if hd.1 = A then eraseKey tl A else hd :: eraseKey tl A := by
  unfold eraseKey
  by_cases hA : hd.1 = A <;> simp [List.filter_cons, hA]

/-- A successful key lookup exhibits a member pair. -/
theorem getKey_eq_some_mem (d : AlbumsData) (k : String) (a : Album)
    (h : getKey d k = some a) : (k, a) ∈ d := by
  induction d with
  | nil => simp [getKey] at h
  | cons hd tl ih =>
    rw [getKey_cons] at h
    by_cases hk : hd.1 = k
    · rw [if_pos hk] at h
      have ha : hd.2 = a := by injection h
      have : hd = (k, a) := by
        cases hd
        simp at hk ha
        simp [hk, ha]
      exact this ▸ List.mem_cons_self _ _
    · rw [if_neg hk] at h
      exact List.mem_cons_of_mem _ (ih h)

/-- A key absent from the key list looks up to nothing. -/
theorem getKey_eq_none_of_not_mem (d : AlbumsData) (k : String)
    (h : k ∉ d.map Prod.fst) : getKey d k = none := by
  unfold getKey
  rw [List.find?_eq_none.mpr]
  · rfl
  · intro p hp hk
    exact h (List.mem_map.mpr ⟨p, hp, of_decide_eq_true hk⟩)

/-- With nodup keys the album bound to a key is unique. -/
theorem keys_nodup_unique (d : AlbumsData) (hnd : (d.map Prod.fst).Nodup)
    (k : String) (a b : Album) (ha : (k, a) ∈ d) (hb : (k, b) ∈ d) : a = b := by
  induction d with
  | nil => simp at ha
  | cons hd tl ih =>
    rw [List.map_cons, List.nodup_cons] at hnd
    rcases List.mem_cons.mp ha with heqa | ha2
    · rcases List.mem_cons.mp hb with heqb | hb2
      · have h1 : a = hd.2 := (Prod.ext_iff.mp heqa).2
        have h2 : b = hd.2 := (Prod.ext_iff.mp heqb).2
        rw [h1, h2]
      · have hk : hd.1 = k := ((Prod.ext_iff.mp heqa).1).symm
        exact absurd (List.mem_map.mpr ⟨(k, b), hb2, rfl⟩) (hk ▸ hnd.1)
    · rcases List.mem_cons.mp hb with heqb | hb2
      · have hk : hd.1 = k := ((Prod.ext_iff.mp heqb).1).symm
        exact absurd (List.mem_map.mpr ⟨(k, a), ha2, rfl⟩) (hk ▸ hnd.1)
      · exact ih hnd.2 ha2 hb2

/-- `filterMap` over a nodup-keyed document where only the pair at one key
produces a value. -/
theorem filterMap_keyed {β : Type} (d : AlbumsData) (f : String × Album → Option β)
    (A : String) (albumA : Album) (r : β)
    (hnd : (d.map Prod.fst).Nodup) (hmem : (A, albumA) ∈ d)
    (hf : f (A, albumA) = some r)
    (hother : ∀ p ∈ d, p.1 ≠ A → f p = none) :
    d.filterMap f = [r] := by
  induction d with
  | nil => simp at hmem
  | cons hd tl ih =>
    rw [List.map_cons, List.nodup_cons] at hnd
    rcases List.mem_cons.mp hmem with rfl | hmem2
    · rw [List.filterMap_cons, hf]
      have htl : tl.filterMap f = [] := by
        rw [List.filterMap_eq_nil_iff]
        intro p hp
        refine hother p (List.mem_cons_of_mem _ hp) (fun hk => ?_)
        exact hnd.1 (List.mem_map.mpr ⟨p, hp, hk⟩)
      rw [htl]
    · have hA : A ∈ tl.map Prod.fst := List.mem_map.mpr ⟨(A, albumA), hmem2, rfl⟩
      have hhd : hd.1 ≠ A := fun he => hnd.1 (he ▸ hA)
      rw [List.filterMap_cons, hother hd (List.mem_cons_self _ _) hhd]
      exact ih hnd.2 hmem2 (fun p hp => hother p (List.mem_cons_of_mem _ hp))

/-- A nodup list whose members all equal one of its members is that
singleton. -/
theorem nodup_eq_singleton {l : List String} {b : String} (hnd : l.Nodup)
    (hb : b ∈ l) (hall : ∀ x ∈ l, x = b) : l = [b] := by
  cases l with
  | nil => simp at hb
  | cons x xs =>
    have hx : x = b := hall x (List.mem_cons_self _ _)
    cases xs with
    | nil => rw [hx]
    | cons y ys =>
      have hy : y = b := hall y (by simp)
      rw [List.nodup_cons] at hnd
      exact absurd (by simp [hx, hy]) hnd.1

/-- Setting a fresh key appends it. -/
theorem setKey_fresh (d : AlbumsData) (B : String) (v : Album)
    (h : B ∉ d.map Prod.fst) : setKey d B v = d ++ [(B, v)] := by
  unfold setKey
  rw [if_neg]
  intro hc
  obtain ⟨p, hp, hk⟩ := List.any_eq_true.mp hc
  exact h (List.mem_map.mpr ⟨p, hp, of_decide_eq_true hk⟩)

/-- Overwriting the key held by the final pair rewrites just that pair. -/
theorem setKey_append_last (left : AlbumsData) (B : String) (v w : Album)
    (h : ∀ p ∈ left, p.1 ≠ B) :
    setKey (left ++ [(B, w)]) B v = left ++ [(B, v)] := by
  unfold setKey
  rw [if_pos]
  · rw [List.map_append]
    have hleft : left.map (fun p => if p.1 = B then (B, v) else p) = left := by
      rw [List.map_congr_left (fun p hp => if_neg (h p hp))]
      simp
    rw [hleft]
    simp
  · exact List.any_eq_true.mpr ⟨(B, w), by simp, by simp⟩

/-- Lookup distributes over append. -/
theorem getKey_append (l r : AlbumsData) (k : String) :
    getKey (l ++ r) k = ((getKey l k).or (getKey r k)) := by
  unfold getKey
  rw [List.find?_append]
  cases l.find? (fun p => p.1 = k) <;> simp

/-- Deleting one key leaves every other lookup unchanged. -/
theorem getKey_eraseKey_ne (d : AlbumsData) (k A : String) (h : k ≠ A) :
    getKey (eraseKey d A) k = getKey d k := by
  induction d with
  | nil => rfl
  | cons hd tl ih =>
    rw [eraseKey_cons]
    by_cases hA : hd.1 = A
    · rw [if_pos hA, ih, getKey_cons, if_neg]
      rw [hA]
      exact fun he => h he.symm
    · rw [if_neg hA, getKey_cons, getKey_cons, ih]

/-- The deleted key looks up to nothing. -/
theorem getKey_eraseKey_self (d : AlbumsData) (A : String) :
    getKey (eraseKey d A) A = none := by
  apply getKey_eq_none_of_not_mem
  intro hmem
  obtain ⟨p, hp, hk⟩ := List.mem_map.mp hmem
  have := List.of_mem_filter hp
  simp [hk] at this

/-- A Bool membership test is false for a non-member. -/
theorem contains_eq_false_of_not_mem {l : List String} {a : String} (h : a ∉ l) :
    l.contains a = false := by
  cases hc : l.contains a
  · rfl
  · exact absurd (List.elem_iff.mp hc) h

/-- C5: with the document holding key A, directory A gone, and a single
unmatched directory B completing the cardinality match, sync detects exactly
one rename A to B; applying it moves the album to key B at the end of the
document with its title regenerated from B, its image paths and cover
rewritten from A to B, key A gone, and every other album untouched. -/
theorem c5_sync_rename_round_trip
    (d : AlbumsData) (dirs : List String) (A B : String) (albumA : Album)
    (hA : getKey d A = some albumA)
    (hnd : (d.map Prod.fst).Nodup)
    (hdirsnd : dirs.Nodup)
    (hAdir : A ∉ dirs)
    (hkeys : ∀ k ∈ d.map Prod.fst, k ≠ A → k ∈ dirs)
    (hBdir : B ∈ dirs)
    (hBkey : B ∉ d.map Prod.fst)
    (hlen : dirs.length = d.length)
    (hothers : ∀ dir ∈ dirs, dir ≠ B → dir ∈ d.map Prod.fst) :
    detectChanges d dirs = [SyncChange.rename A B albumA] ∧
    applyChanges d (detectChanges d dirs) =
      eraseKey d A ++ [(B, renamedAlbum A B albumA)] ∧
    renamedAlbum A B albumA =
      { title := generateTitle B
        description := albumA.description
        cover := if albumA.cover ≠ "" then
                   replaceFirst albumA.cover (A ++ "/") (B ++ "/")
                 else albumA.cover
        images := albumA.images.map (fun img =>
          { img with
            thumbnail := replaceFirst img.thumbnail ("/" ++ A ++ "/") ("/" ++ B ++ "/")
            full := replaceFirst img.full ("/" ++ A ++ "/") ("/" ++ B ++ "/") }) } ∧
    getKey (applyChanges d (detectChanges d dirs)) B = some (renamedAlbum A B albumA) ∧
    getKey (applyChanges d (detectChanges d dirs)) A = none ∧
    ∀ k, k ≠ A → k ≠ B →
      getKey (applyChanges d (detectChanges d dirs)) k = getKey d k := by
  have hmemA : (A, albumA) ∈ d := getKey_eq_some_mem d A albumA hA
  have hAkeys : A ∈ d.map Prod.fst := List.mem_map.mpr ⟨(A, albumA), hmemA, rfl⟩
  have hAB : A ≠ B := fun he => hBkey (he ▸ hAkeys)
  have hunm : dirs.filter (fun dir => !(d.map Prod.fst).contains dir) = [B] := by
    apply nodup_eq_singleton (hdirsnd.filter _)
    · exact List.mem_filter.mpr ⟨hBdir, by
        rw [contains_eq_false_of_not_mem hBkey]; rfl⟩
    · intro x hx
      have hx1 := (List.mem_filter.mp hx).1
      have hx2 := (List.mem_filter.mp hx).2
      by_contra hne
      have hcx : (d.map Prod.fst).contains x = true :=
        List.elem_iff.mpr (hothers x hx1 hne)
      rw [hcx] at hx2
      simp at hx2
  have hfpr : findPossibleRename A dirs (d.map Prod.fst) = some B := by
    simp only [findPossibleRename]
    rw [hunm]
    simp [hlen]
  have hkc : detectKeyChanges d dirs = [SyncChange.rename A B albumA] := by
    unfold detectKeyChanges
    apply filterMap_keyed d _ A albumA _ hnd hmemA
    · rw [contains_eq_false_of_not_mem hAdir]
      simp [hfpr]
    · intro p hp hpne
      have hpd : dirs.contains p.1 = true :=
        List.elem_iff.mpr (hkeys p.1 (List.mem_map.mpr ⟨p, hp, rfl⟩) hpne)
      simp [hpd]
      intro hcon
      exact absurd (List.elem_iff.mp hpd) hcon
  have hdir0 : detectDirChanges d dirs [SyncChange.rename A B albumA] = [] := by
    unfold detectDirChanges
    rw [List.filterMap_eq_nil_iff]
    intro dir hdir
    by_cases hdB : dir = B
    · subst hdB
      rw [contains_eq_false_of_not_mem hBkey]
      simp
    · have hcd : (d.map Prod.fst).contains dir = true :=
        List.elem_iff.mpr (hothers dir hdir hdB)
      rw [hcd]
      simp
  have hdc : detectChanges d dirs = [SyncChange.rename A B albumA] := by
    simp only [detectChanges]
    rw [hkc, hdir0]
    rfl
  have he : eraseKey (d ++ [(B, albumA)]) A = eraseKey d A ++ [(B, albumA)] := by
    unfold eraseKey
    rw [List.filter_append]
    have : List.filter (fun p => decide (p.1 ≠ A)) [(B, albumA)] = [(B, albumA)] := by
      simp [List.filter_cons, Ne.symm hAB]
    rw [this]
  have hgnone : getKey (eraseKey d A) B = none := by
    apply getKey_eq_none_of_not_mem
    intro hmem
    obtain ⟨p, hp, hk⟩ := List.mem_map.mp hmem
    exact hBkey (List.mem_map.mpr ⟨p, List.mem_of_mem_filter hp, hk⟩)
  have hg : getKey (eraseKey d A ++ [(B, albumA)]) B = some albumA := by
    rw [getKey_append, hgnone]
    simp [getKey_cons]
  have happ : applyChanges d [SyncChange.rename A B albumA] =
      eraseKey d A ++ [(B, renamedAlbum A B albumA)] := by
    unfold applyChanges
    rw [List.foldl_cons, List.foldl_nil]
    simp only
    rw [setKey_fresh d B albumA hBkey, he, hg]
    simp only
    apply setKey_append_last
    intro p hp hpB
    exact hBkey (List.mem_map.mpr ⟨p, List.mem_of_mem_filter hp, hpB⟩)
  have hfull : applyChanges d (detectChanges d dirs) =
      eraseKey d A ++ [(B, renamedAlbum A B albumA)] := by
    rw [hdc, happ]
  have hrnB : getKey (eraseKey d A ++ [(B, renamedAlbum A B albumA)]) B =
      some (renamedAlbum A B albumA) := by
    rw [getKey_append, hgnone]
    simp [getKey_cons]
  refine ⟨hdc, hfull, rfl, ?_, ?_, ?_⟩
  · rw [hfull, hrnB]
  · rw [hfull, getKey_append, getKey_eraseKey_self]
    simp [getKey_cons, getKey, Ne.symm hAB]
  · intro k hkA hkB
    have hBk : ¬ (B = k) := fun hEq => hkB hEq.symm
    rw [hfull, getKey_append, getKey_eraseKey_ne d k A hkA]
    cases hgk : getKey d k with
    | none => simp [getKey_cons, getKey, hBk]
    | some v => rfl

/-- The album stored under the old key in the C5 witness document. -/
def c5AlbumA : Album :=
  { title := "Old Album"
    description := "renamed album"
    cover := "old-album/cover.jpg"
    images :=
      [{ id := "p1", title := "P1"
         thumbnail := "assets/images/thumbnails/old-album/p1.webp"
         full := "assets/images/full/old-album/p1.webp"
         date := 10, order := none, originalFilename := some "p1.jpg" },
       { id := "p2", title := "P2"
         thumbnail := "assets/images/thumbnails/old-album/p2.webp"
         full := "assets/images/full/old-album/p2.webp"
         date := 20, order := none, originalFilename := some "p2.jpg" }] }

/-- The untouched second album of the C5 witness document. -/
def c5AlbumC : Album :=
  { title := "City"
    description := "untouched album"
    cover := "city/cover.jpg"
    images := [] }

/-- The C5 witness document: the renamed album plus one other. -/
def c5Doc : AlbumsData := [("old-album", c5AlbumA), ("city", c5AlbumC)]

/-- The C5 witness directory listing: `old-album` was renamed `new-album`. -/
def c5Dirs : List String := ["city", "new-album"]

/-- C5 witness: the rename round-trip applied to a two-album document whose
`old-album` directory was renamed `new-album`. -/
theorem c5_sync_rename_round_trip_witness :
    getKey c5Doc "old-album" = some c5AlbumA ∧
    (c5Doc.map Prod.fst).Nodup ∧
    c5Dirs.Nodup ∧
    "old-album" ∉ c5Dirs ∧
    (∀ k ∈ c5Doc.map Prod.fst, k ≠ "old-album" → k ∈ c5Dirs) ∧
    "new-album" ∈ c5Dirs ∧
    "new-album" ∉ c5Doc.map Prod.fst ∧
    c5Dirs.length = c5Doc.length ∧
    (∀ dir ∈ c5Dirs, dir ≠ "new-album" → dir ∈ c5Doc.map Prod.fst) ∧
    detectChanges c5Doc c5Dirs =
      [SyncChange.rename "old-album" "new-album" c5AlbumA] ∧
    getKey (applyChanges c5Doc (detectChanges c5Doc c5Dirs)) "new-album" =
      some (renamedAlbum "old-album" "new-album" c5AlbumA) ∧
    getKey (applyChanges c5Doc (detectChanges c5Doc c5Dirs)) "old-album" = none ∧
    getKey (applyChanges c5Doc (detectChanges c5Doc c5Dirs)) "city" = getKey c5Doc "city" :=
  let h := c5_sync_rename_round_trip c5Doc c5Dirs "old-album" "new-album" c5AlbumA
    (by decide) (by decide) (by decide) (by decide) (by decide) (by decide)
    (by decide) (by decide) (by decide)
  ⟨by decide, by decide, by decide, by decide, by decide, by decide, by decide,
   by decide, by decide, h.1, h.2.2.2.1, h.2.2.2.2.1,
   h.2.2.2.2.2 "city" (by decide) (by decide)⟩

/-! ## C7: span decision and column choice of positionItem -/

/-- A left min-fold lands on one of its inputs. -/
theorem foldl_min_mem : ∀ (l : List ℚ) (a : ℚ), l.foldl min a ∈ a :: l
  | [], a => List.mem_singleton.mpr rfl
  | c :: l, a => by
    rw [List.foldl_cons]
    rcases List.mem_cons.mp (foldl_min_mem l (min a c)) with h | h
    · rw [h]
      rcases min_choice a c with hm | hm <;> rw [hm] <;> simp
    · simp [List.mem_cons_of_mem, h]

/-- A left min-fold bounds every input from below. -/
theorem foldl_min_le : ∀ (l : List ℚ) (a : ℚ), ∀ x ∈ a :: l, l.foldl min a ≤ x
  | [], a => by simp
  | c :: l, a => by
    intro x hx
    rw [List.foldl_cons]
    have hbase : l.foldl min (min a c) ≤ min a c :=
      foldl_min_le l (min a c) (min a c) (List.mem_cons_self _ _)
    rcases List.mem_cons.mp hx with h1 | hx2
    · rw [h1]
      exact hbase.trans (min_le_left a c)
    · rcases List.mem_cons.mp hx2 with h3 | hx4
      · rw [h3]
        exact hbase.trans (min_le_right a c)
      · exact foldl_min_le l (min a c) x (List.mem_cons_of_mem _ hx4)

/-- `Math.min` of a nonempty spread is one of the heights. -/
theorem jsMin_mem (l : List ℚ) (h : l ≠ []) : jsMin l ∈ l := by
  cases l with
  | nil => exact absurd rfl h
  | cons a l => exact foldl_min_mem l a

/-- `Math.min` of a nonempty spread is a lower bound. -/
theorem jsMin_le (l : List ℚ) (x : ℚ) (hx : x ∈ l) : jsMin l ≤ x := by
  cases l with
  | nil => simp at hx
  | cons a l => exact foldl_min_le l a x hx

/-- Specification of `Array.prototype.indexOf`-via-`findIdx`: the first index
satisfying the predicate. -/
theorem findIdx_spec (p : ℚ → Bool) : ∀ (l : List ℚ), (∃ x ∈ l, p x = true) →
    l.findIdx p < l.length ∧ p (l.getD (l.findIdx p) 0) = true ∧
    ∀ j < l.findIdx p, p (l.getD j 0) = false
  | [], hx => by simp at hx
  | c :: l, hx => by
    cases hp : p c with
    | true =>
      refine ⟨?_, ?_, ?_⟩ <;> simp [List.findIdx_cons, hp]
    | false =>
      have hex : ∃ x ∈ l, p x = true := by
        obtain ⟨x, hxm, hpx⟩ := hx
        rcases List.mem_cons.mp hxm with rfl | hxl
        · rw [hp] at hpx; exact absurd hpx (by simp)
        · exact ⟨x, hxl, hpx⟩
      obtain ⟨ih1, ih2, ih3⟩ := findIdx_spec p l hex
      refine ⟨?_, ?_, ?_⟩
      · rw [List.findIdx_cons, hp]
        simpa using Nat.succ_lt_succ ih1
      · simpa [List.findIdx_cons, hp] using ih2
      · intro j hj
        rw [List.findIdx_cons, hp] at hj
        simp only [cond_false] at hj
        cases j with
        | zero => exact hp
        | succ j =>
          rw [List.getD_cons_succ]
          exact ih3 j (by omega)

/-- The column chosen for a single-span item: the first column of minimum
height. -/
theorem findIdx_min_spec (columns : List ℚ) (hcol : columns ≠ []) :
    columns.findIdx (fun h => h = jsMin columns) < columns.length ∧
    columns.getD (columns.findIdx (fun h => h = jsMin columns)) 0 = jsMin columns ∧
    ∀ j < columns.findIdx (fun h => h = jsMin columns),
      columns.getD j 0 ≠ jsMin columns := by
  have hex : ∃ x ∈ columns, (fun h => decide (h = jsMin columns)) x = true :=
    ⟨jsMin columns, jsMin_mem columns hcol, by simp⟩
  obtain ⟨h1, h2, h3⟩ := findIdx_spec _ columns hex
  refine ⟨h1, by simpa using h2, ?_⟩
  intro j hj
  have := h3 j hj
  simpa using this

/-- The span maximum over two columns is the max of the two heights. -/
theorem spanMax_pair : ∀ (columns : List ℚ) (i : Nat), i + 1 < columns.length →
    spanMax columns i 2 = max (columns.getD i 0) (columns.getD (i + 1) 0)
  | [], i, h => by simp at h
  | [a], i, h => by simp at h
  | a :: b :: rest, 0, h => by
    simp [spanMax, jsMax]
  | a :: rest, (i + 1), h => by
    have hlt : i + 1 < rest.length := by
      simp only [List.length_cons] at h
      omega
    have := spanMax_pair rest i hlt
    simpa [spanMax, List.getD_cons_succ] using this

/-- Invariant of the span scan: after scanning starts `0..k-1` the best slot
is the lowest index attaining the minimum span maximum. -/
theorem spanScan_spec (columns : List ℚ) (span : Nat) : ∀ (k : Nat), 1 ≤ k →
    ((List.range k).foldl (spanStep columns span) (0, none)).1 < k ∧
    ((List.range k).foldl (spanStep columns span) (0, none)).2 =
      some (spanMax columns
        ((List.range k).foldl (spanStep columns span) (0, none)).1 span) ∧
    (∀ j < k, spanMax columns
        ((List.range k).foldl (spanStep columns span) (0, none)).1 span ≤
      spanMax columns j span) ∧
    (∀ j < ((List.range k).foldl (spanStep columns span) (0, none)).1,
      spanMax columns
        ((List.range k).foldl (spanStep columns span) (0, none)).1 span <
      spanMax columns j span) := by
  intro k
  induction k with
  | zero => intro h; omega
  | succ k ih =>
    intro _
    by_cases hk : 1 ≤ k
    · obtain ⟨h1, h2, h3, h4⟩ := ih hk
      rw [List.range_succ, List.foldl_append, List.foldl_cons, List.foldl_nil]
      set st := (List.range k).foldl (spanStep columns span) (0, none) with hst
      unfold spanStep
      rw [h2]
      simp only
      by_cases hlt : spanMax columns k span < spanMax columns st.1 span
      · rw [if_pos hlt]
        refine ⟨Nat.lt_succ_self k, rfl, ?_, ?_⟩
        · intro j hj
          rcases Nat.lt_succ_iff_lt_or_eq.mp hj with hj2 | rfl
          · exact (le_of_lt hlt).trans (h3 j hj2)
          · exact le_refl _
        · intro j hj
          exact lt_of_lt_of_le hlt (h3 j hj)
      · rw [if_neg hlt]
        refine ⟨h1.trans (Nat.lt_succ_self k), h2, ?_, h4⟩
        intro j hj
        rcases Nat.lt_succ_iff_lt_or_eq.mp hj with hj2 | rfl
        · exact h3 j hj2
        · exact not_lt.mp hlt
    · have hk0 : k = 0 := by omega
      subst hk0
      rw [List.range_succ, List.range_zero]
      simp only [List.nil_append, List.foldl_cons, List.foldl_nil]
      refine ⟨by simp [spanStep], by simp [spanStep], ?_, by simp [spanStep]⟩
      intro j hj
      have hj0 : j = 0 := by omega
      subst hj0
      simp [spanStep]

/-- The starting column chosen for a two-span item: within bounds, of minimal
span maximum, and the lowest such index. -/
theorem spanBestPosition_spec (columns : List ℚ) (h2 : 2 ≤ columns.length) :
    spanBestPosition columns 2 ≤ columns.length - 2 ∧
    (∀ j ≤ columns.length - 2,
      spanMax columns (spanBestPosition columns 2) 2 ≤ spanMax columns j 2) ∧
    (∀ j < spanBestPosition columns 2,
      spanMax columns (spanBestPosition columns 2) 2 < spanMax columns j 2) := by
  have hk : (((columns.length : Int) - ((2 : Nat) : Int)) + 1).toNat =
      columns.length - 1 := by omega
  have hk1 : 1 ≤ columns.length - 1 := by omega
  unfold spanBestPosition
  simp only [hk]
  obtain ⟨h1, _, h3, h4⟩ := spanScan_spec columns 2 (columns.length - 1) hk1
  refine ⟨by omega, ?_, h4⟩
  intro j hj
  exact h3 j (by omega)

/-- C7 (amended): an item spans two columns exactly when it has an image
passing the code's landscape test — natural landscape, or rendered landscape
(`complete` with offsetWidth > offsetHeight) — with at least two columns and
a viewport of at least 769; otherwise it spans one.  A one-span item goes to
the first column of minimal height, its y that height; a two-span item goes
to the lowest starting index minimising the maximum of the two spanned
column heights, its y that maximum. -/
theorem c7_span_and_placement (columns : List ℚ) (acw g iw : ℚ) (item : LayoutItem)
    (hcol : columns ≠ []) :
    ((positionItem columns acw g iw item).columnsSpanned = 2 ↔
      (∃ img, item.img = some img ∧ isLandscape img = true) ∧
      2 ≤ columns.length ∧ 769 ≤ iw) ∧
    ((positionItem columns acw g iw item).columnsSpanned = 1 ∨
     (positionItem columns acw g iw item).columnsSpanned = 2) ∧
    ((positionItem columns acw g iw item).columnsSpanned = 1 →
      (positionItem columns acw g iw item).columnIndex < columns.length ∧
      columns.getD (positionItem columns acw g iw item).columnIndex 0 = jsMin columns ∧
      (∀ j < (positionItem columns acw g iw item).columnIndex,
        columns.getD j 0 ≠ jsMin columns) ∧
      (positionItem columns acw g iw item).y = jsMin columns) ∧
    ((positionItem columns acw g iw item).columnsSpanned = 2 →
      (positionItem columns acw g iw item).columnIndex ≤ columns.length - 2 ∧
      (∀ j ≤ columns.length - 2,
        spanMax columns (positionItem columns acw g iw item).columnIndex 2 ≤
          spanMax columns j 2) ∧
      (∀ j < (positionItem columns acw g iw item).columnIndex,
        spanMax columns (positionItem columns acw g iw item).columnIndex 2 <
          spanMax columns j 2) ∧
      (∀ j, j + 1 < columns.length →
        spanMax columns j 2 = max (columns.getD j 0) (columns.getD (j + 1) 0)) ∧
      (positionItem columns acw g iw item).y =
        spanMax columns (positionItem columns acw g iw item).columnIndex 2) := by
  obtain ⟨hs1, hs2, hs3⟩ := findIdx_min_spec columns hcol
  cases himg : item.img with
  | none =>
    have hP : positionItem columns acw g iw item =
        { columnsSpanned := 1
          itemWidth := acw
          columnIndex := columns.findIdx (fun h => h = jsMin columns)
          x := ((columns.findIdx (fun h => h = jsMin columns) : Nat) : ℚ) * (acw + g)
          y := columns.getD (columns.findIdx (fun h => h = jsMin columns)) 0 } := by
      simp [positionItem, himg]
    rw [hP]
    refine ⟨by simp, Or.inl rfl, ?_, by simp⟩
    intro _
    exact ⟨hs1, hs2, hs3, hs2⟩
  | some img =>
    by_cases hc : 2 ≤ columns.length ∧ 769 ≤ iw ∧ isLandscape img = true
    · have hmin : min 2 columns.length = 2 := min_eq_left hc.1
      have hP : positionItem columns acw g iw item =
          { columnsSpanned := 2
            itemWidth := acw * ((2 : Nat) : ℚ) + g * (((2 : Nat) : ℚ) - 1)
            columnIndex := spanBestPosition columns 2
            x := ((spanBestPosition columns 2 : Nat) : ℚ) * (acw + g)
            y := spanMax columns (spanBestPosition columns 2) 2 } := by
        simp [positionItem, himg, hc, hmin]
      obtain ⟨hb1, hb2, hb3⟩ := spanBestPosition_spec columns hc.1
      rw [hP]
      refine ⟨?_, Or.inr rfl, ?_, ?_⟩
      · constructor
        · intro _
          exact ⟨⟨img, rfl, hc.2.2⟩, hc.1, hc.2.1⟩
        · intro _
          rfl
      · intro habs
        simp at habs
      · intro _
        exact ⟨hb1, hb2, hb3, fun j hj => spanMax_pair columns j hj, rfl⟩
    · have hP : positionItem columns acw g iw item =
          { columnsSpanned := 1
            itemWidth := acw
            columnIndex := columns.findIdx (fun h => h = jsMin columns)
            x := ((columns.findIdx (fun h => h = jsMin columns) : Nat) : ℚ) * (acw + g)
            y := columns.getD (columns.findIdx (fun h => h = jsMin columns)) 0 } := by
        simp [positionItem, himg, hc]
      rw [hP]
      refine ⟨?_, Or.inl rfl, ?_, by simp⟩
      · constructor
        · intro habs
          simp at habs
        · rintro ⟨⟨img2, heq, hland⟩, h2, hiw⟩
          injection heq with heq2
          subst heq2
          exact absurd ⟨h2, hiw, hland⟩ hc
      · intro _
        exact ⟨hs1, hs2, hs3, hs2⟩

/-- C7 counterexample: an image that is not naturally landscape
(naturalWidth = naturalHeight = 100) but is complete with a landscape
rendered box (offset 200 by 100) still spans two columns, contradicting the
claim that spanning requires naturalWidth > naturalHeight. -/
theorem c7_span_counterexample :
    (positionItem [0, 0, 0] 300 16 1000
      ⟨some ⟨100, 100, true, 200, 100⟩⟩).columnsSpanned = 2 ∧
    ¬ ((100 : ℚ) > 100) := by
  constructor
  · decide
  · norm_num

/-- C7 witness: the span characterisation applied to a three-column layout
and a naturally landscape image at viewport 1000. -/
theorem c7_span_and_placement_witness :
    ([(5 : ℚ), 1, 3] ≠ []) ∧
    ((positionItem [5, 1, 3] 300 16 1000
        ⟨some ⟨200, 100, true, 200, 100⟩⟩).columnsSpanned = 2 ↔
      (∃ img, (⟨some ⟨200, 100, true, 200, 100⟩⟩ : LayoutItem).img = some img ∧
        isLandscape img = true) ∧
      2 ≤ ([(5 : ℚ), 1, 3] : List ℚ).length ∧ (769 : ℚ) ≤ 1000) :=
  ⟨by decide,
   (c7_span_and_placement [5, 1, 3] 300 16 1000
     ⟨some ⟨200, 100, true, 200, 100⟩⟩ (by decide)).1⟩
